import Mathlib

/-!
Verification of the sample-manifest ingestion and validation logic of the
`tenx` single-cell pipeline (`pipelines/pipeline_cellranger.py`).

The Python code is shallowly embedded: strings are Lean `String`s, Python
`str.split(sep)` (single-character separators only are used by the code),
`str.strip()`, `os.path.basename`, substring tests and Python `dict`
insertion-order semantics are modelled by executable Lean functions below.
`sample_information` becomes a pure function from the directory listing
(a list of `(filename, file body lines)` pairs, in the order the filesystem
enumerates them) and the configuration to `Except SampleError (Option PTable)`.
-/

deriving instance DecidableEq for Except

/-- Python `s.split(sep)` on a single-character separator, over char lists:
keeps empty segments, `"" → [""]`. Accumulator holds the current segment
reversed. -/
def splitCharAux (sep : Char) : List Char → List Char → List (List Char)
  | [], acc => [acc.reverse]
  | c :: cs, acc =>
    if c = sep then acc.reverse :: splitCharAux sep cs []
    else splitCharAux sep cs (c :: acc)

/-- Python `s.split(sep)` for a single-character `sep`. -/
def splitChar (sep : Char) (s : List Char) : List (List Char) :=
  splitCharAux sep s []

/-- Python `s.split(sep)` on `String`. -/
def pySplit (sep : Char) (s : String) : List String :=
  (splitChar sep s.data).map String.mk

/-- Does `s` contain `t` as a contiguous substring (Python `t in s`)? -/
def containsSub (t : List Char) : List Char → Bool
  | [] => t.isEmpty
  | c :: cs => t.isPrefixOf (c :: cs) || containsSub t cs

/-- Python `t in s` for strings. -/
def pyContains (s t : String) : Bool :=
  containsSub t.data s.data

/-- Characters stripped by Python `str.strip()` (ASCII whitespace). -/
def isPySpace (c : Char) : Bool :=
  c == ' ' || c == '\t' || c == '\n' || c == '\r' || c == '\x0b' || c == '\x0c'

/-- Python `s.strip()`. -/
def pyStrip (s : String) : String :=
  ⟨((s.data.dropWhile isPySpace).reverse.dropWhile isPySpace).reverse⟩

/-- `os.path.basename`: the part after the last `/`. -/
def basename (p : String) : String :=
  ⟨(splitChar '/' p.data).getLastD []⟩

/-- Python `sep.join(xs)`. -/
def pyJoin (sep : String) : List String → String
  | [] => ""
  | x :: xs => xs.foldl (fun a b => a ++ sep ++ b) x

/-- Does a directory entry match the glob pattern `*.sample`?  `glob` matches
a trailing `.sample` and (like all `*` globs) skips names starting with a dot. -/
def matchesSampleGlob (n : String) : Bool :=
  ".sample".data.isSuffixOf n.data && !(".".data.isPrefixOf n.data)

/-- Python `dict` assignment `d[k] = v` on an insertion-ordered association
list: an existing key keeps its position and gets the new value, a new key is
appended. -/
def dictInsert (d : List (String × α)) (k : String) (v : α) : List (String × α) :=
  if d.any (fun p => p.1 == k) then
    d.map (fun p => if p.1 == k then (k, v) else p)
  else
    d ++ [(k, v)]

/-- Python `d[k]` lookup (first, i.e. unique, occurrence). -/
def dictGet? (d : List (String × α)) (k : String) : Option α :=
  (d.find? (fun p => p.1 == k)).map (fun p => p.2)

/-- Python `dict(pairs)`: left-to-right insertion with overwrite. -/
def dictOfList (ps : List (String × α)) : List (String × α) :=
  ps.foldl (fun d p => dictInsert d p.1 p.2) []

/-- A pandas `DataFrame` as used by `sample_information`: a row index of
sample names, an ordered list of column names, and per-row cells stored as an
insertion-ordered association list from column name to value. -/
structure PTable where
  colNames : List String
  rows : List (String × List (String × String))
deriving DecidableEq

/-- Column order of `pd.DataFrame(dict_of_dicts).transpose()`: the union of the
inner dicts' keys in first-seen order. -/
def unionKeys (ds : List (List (String × String))) : List String :=
  ds.foldl
    (fun acc d => d.foldl (fun a p => if a.contains p.1 then a else a ++ [p.1]) acc)
    []

/-- Pandas column assignment `t[c] = vals` (one value per row, in row order). -/
def assignColumn (t : PTable) (c : String) (vals : List String) : PTable :=
  { colNames := if t.colNames.contains c then t.colNames else t.colNames ++ [c]
    rows := (t.rows.zip vals).map (fun p => (p.1.1, dictInsert p.1.2 c p.2)) }

/-- The values of column `c`, in row order (`t[c].values`). -/
def colValues (t : PTable) (c : String) : List String :=
  t.rows.map (fun r => (dictGet? r.2 c).getD "")

/-- The configuration options read from `PARAMS` by `sample_information`. -/
structure Config where
  name_field_titles : String
  sample_fields : Option String
deriving DecidableEq

/-- The distinct `ValueError`s raised by `sample_information`, by raise site,
carrying the data interpolated into each message. -/
inductive SampleError where
  | noInput : SampleError
  | malformedManifestName (sample_basename expected : String) : SampleError
  | reservedName : SampleError
  | fieldCountMismatch (sample_name : String) (name_field_titles : List String) : SampleError
deriving DecidableEq

/-- The filename format quoted in the malformed-name error message. -/
def expectedPattern : String :=
  "sample_name_fields.ncells.seq_batch.sample"

/-- The first dot-separated section of a basename (`sample_name_sections[0]`). -/
def sampleNameOf (b : String) : String :=
  (pySplit '.' b).headD ""

/-- One iteration of the filename loop of `sample_information`: validate one
manifest path and build its metadata dict
`dict(zip(sample_titles, sample_fields))`. -/
def parseSampleFile (name_field_titles : List String) (sample_file : String) :
    Except SampleError (String × List (String × String)) :=
  let sample_basename := basename sample_file
  let sample_name_sections := pySplit '.' sample_basename
  if sample_name_sections.length ≠ 4 then
    .error (.malformedManifestName sample_basename expectedPattern)
  else
    let sample_name := sample_name_sections.headD ""
    if pyContains sample_name "sample_id" then
      .error .reservedName
    else if (pySplit '_' sample_name).length ≠ name_field_titles.length then
      .error (.fieldCountMismatch sample_name name_field_titles)
    else
      let sample_titles := name_field_titles ++ ["ncells", "seq_id", "file"]
      let sample_fields := pySplit '_' sample_name ++
        (sample_name_sections.drop 1).take 2 ++ [sample_file]
      .ok (sample_name, dictOfList (sample_titles.zip sample_fields))

/-- The filename loop of `sample_information`, threading the `samples` dict. -/
def processSamples (name_field_titles : List String) (fs : List String)
    (samples : List (String × List (String × String))) :
    Except SampleError (List (String × List (String × String))) :=
  match fs with
  | [] => .ok samples
  | f :: rest =>
    match parseSampleFile name_field_titles f with
    | .error e => .error e
    | .ok (name, record) =>
      processSamples name_field_titles rest (dictInsert samples name record)

/-- Lines 216–231 of `pipeline_cellranger.py`: turn the `samples` dict into
the sample table (`pd.DataFrame(samples).transpose()` plus the four derived
column assignments). -/
def buildTable (cfg : Config) (samples : List (String × List (String × String))) :
    PTable :=
  let t0 : PTable := ⟨unionKeys (samples.map Prod.snd), samples⟩
  let t1 := assignColumn t0 "library_id" (t0.rows.map Prod.fst)
  let t2 :=
    match cfg.sample_fields with
    | none => assignColumn t1 "sample_id" (colValues t1 "library_id")
    | some sf =>
      let sfs := pySplit ',' sf
      assignColumn t1 "sample_id"
        (t1.rows.map (fun r =>
          pyJoin "_" (sfs.map (fun c => (dictGet? r.2 c).getD ""))))
  let t3 := assignColumn t2 "molecule_h5"
    ((colValues t2 "library_id").map (fun x => x ++ "-count/outs/molecule_info.h5"))
  assignColumn t3 "agg_id"
    ((List.range t3.rows.length).map (fun i => toString (i + 1)))

/-- `sample_information` from `pipeline_cellranger.py`.  `dir` is the
directory listing of `data.dir` in filesystem enumeration order, each entry a
filename with its body's lines; `glob.glob("data.dir/*.sample")` keeps the
matching names, prefixed with the directory.  Returns `.ok none` when
`check_only`, otherwise the constructed sample table. -/
def sample_information (cfg : Config) (check_only : Bool)
    (dir : List (String × List String)) : Except SampleError (Option PTable) :=
  let sample_files :=
    (((dir.map Prod.fst).filter matchesSampleGlob).map (fun e => "data.dir/" ++ e))
  if sample_files.length = 0 then
    .error .noInput
  else
    let name_field_titles := pySplit ',' cfg.name_field_titles
    match processSamples name_field_titles sample_files [] with
    | .error e => .error e
    | .ok samples =>
      if check_only then
        .ok none
      else
        .ok (some (buildTable cfg samples))

/-- The manifest-body loop of `cellrangerCount`: strip each line, drop blanks,
collect the kept paths (`seq_folders`) and their basenames (`sample_ids`). -/
def parseManifestBody : List String → List String × List String
  | [] => ([], [])
  | line :: rest =>
    let seq_folder_path := pyStrip line
    let r := parseManifestBody rest
    if seq_folder_path ≠ "" then
      (seq_folder_path :: r.1, basename seq_folder_path :: r.2)
    else r

/-- Modelled from the spec: "`ncells`: positive integer, expected cell count".
Whether a string denotes a positive decimal integer.  (The code performs no
such check; this definition exists to state that fact.) -/
def isPosIntString (s : String) : Bool :=
  !s.data.isEmpty && s.data.all Char.isDigit &&
    0 < s.data.foldl (fun n c => n * 10 + (c.toNat - '0'.toNat)) 0

/-- The basename validity checks of the filename loop, as one predicate:
4 dot-sections, no reserved `sample_id` substring, right name-field count. -/
def validBasename (name_field_titles : List String) (b : String) : Bool :=
  (pySplit '.' b).length == 4 &&
  !pyContains (sampleNameOf b) "sample_id" &&
  (pySplit '_' (sampleNameOf b)).length == name_field_titles.length

/-- The metadata dict `parseSampleFile` builds for a valid manifest path. -/
def mkRecord (name_field_titles : List String) (sample_file : String) :
    List (String × String) :=
  dictOfList (((name_field_titles ++ ["ncells", "seq_id", "file"]).zip
    (pySplit '_' (sampleNameOf (basename sample_file)) ++
      ((pySplit '.' (basename sample_file)).drop 1).take 2 ++ [sample_file])))

/-- The column names of a successful `sample_information` result (`[]` on
error or in `check_only` mode); used to state facts about the table schema. -/
def tableColNames : Except SampleError (Option PTable) → List String
  | .ok (some t) => t.colNames
  | _ => []

/-- Did `sample_information` return an actual table? -/
def tableIsSome : Except SampleError (Option PTable) → Bool
  | .ok (some _) => true
  | _ => false

/-- The cell of column `c` in the first row of a successful result. -/
def firstRowValue (r : Except SampleError (Option PTable)) (c : String) : String :=
  match r with
  | .ok (some t) =>
    match t.rows with
    | row :: _ => (dictGet? row.2 c).getD ""
    | [] => ""
  | _ => ""

/-! ### Lemmas about the string primitives -/

theorem splitCharAux_append_of_not_mem (sep : Char) (xs ys acc : List Char)
    (h : sep ∉ xs) :
    splitCharAux sep (xs ++ ys) acc = splitCharAux sep ys (xs.reverse ++ acc) := by
  induction xs generalizing acc with
  | nil => simp
  | cons c cs ih =>
    have hc : ¬ c = sep := by rintro rfl; exact h (List.mem_cons_self _ _)
    have hcs : sep ∉ cs := fun hm => h (List.mem_cons_of_mem _ hm)
    simp [splitCharAux, hc, ih _ hcs]

theorem splitCharAux_of_not_mem (sep : Char) (xs acc : List Char) (h : sep ∉ xs) :
    splitCharAux sep xs acc = [acc.reverse ++ xs] := by
  induction xs generalizing acc with
  | nil => simp [splitCharAux]
  | cons c cs ih =>
    have hc : ¬ c = sep := by rintro rfl; exact h (List.mem_cons_self _ _)
    have hcs : sep ∉ cs := fun hm => h (List.mem_cons_of_mem _ hm)
    simp [splitCharAux, hc, ih _ hcs]

theorem splitCharAux_sep_cons (sep : Char) (ys acc : List Char) :
    splitCharAux sep (sep :: ys) acc = acc.reverse :: splitCharAux sep ys [] := by
  simp [splitCharAux]

theorem splitChar_of_not_mem (sep : Char) (xs : List Char) (h : sep ∉ xs) :
    splitChar sep xs = [xs] := by
  simpa using splitCharAux_of_not_mem sep xs [] h

/-- `os.path.basename` undoes the `os.path.join` performed inside
`glob.glob("data.dir/*.sample")`, for any directory entry (entries never
contain `/`). -/
theorem basename_datadir (b : String) (h : '/' ∉ b.data) :
    basename ("data.dir/" ++ b) = b := by
  have hd : ("data.dir/" ++ b).data = "data.dir".data ++ '/' :: b.data := by
    cases b with
    | mk l => rfl
  have hnd : '/' ∉ "data.dir".data := by decide
  unfold basename splitChar
  rw [hd, splitCharAux_append_of_not_mem _ _ _ _ hnd, splitCharAux_sep_cons]
  rw [show splitCharAux '/' b.data [] = splitChar '/' b.data from rfl,
    splitChar_of_not_mem _ _ h]
  simp

/-! ### Lemmas about the `dict` model -/

theorem dictInsert_of_fresh (d : List (String × α)) (k : String) (v : α)
    (h : ∀ p ∈ d, p.1 ≠ k) : dictInsert d k v = d ++ [(k, v)] := by
  have : d.any (fun p => p.1 == k) = false := by
    simp only [List.any_eq_false]
    intro p hp hb
    exact h p hp (by simpa using hb)
  simp [dictInsert, this]

theorem foldl_dictInsert_append (ps : List (String × α))
    (d : List (String × α)) (hnd : (ps.map Prod.fst).Nodup)
    (hfresh : ∀ q ∈ ps, ∀ p ∈ d, p.1 ≠ q.1) :
    ps.foldl (fun d q => dictInsert d q.1 q.2) d = d ++ ps := by
  induction ps generalizing d with
  | nil => simp
  | cons q qs ih =>
    simp only [List.foldl_cons]
    rw [dictInsert_of_fresh d q.1 q.2 (fun p hp => hfresh q (List.mem_cons_self _ _) p hp)]
    have hnd2 : (∀ x : α, (q.1, x) ∉ qs) ∧ (qs.map Prod.fst).Nodup := by
      simpa using hnd
    have hnd' : (qs.map Prod.fst).Nodup := hnd2.2
    have hq : q.1 ∉ qs.map Prod.fst := by
      intro hmem
      rcases List.mem_map.mp hmem with ⟨p, hp, hp1⟩
      exact hnd2.1 p.2 (by rw [← hp1]; simpa using hp)
    have hfresh' : ∀ q' ∈ qs, ∀ p ∈ d ++ [(q.1, q.2)], p.1 ≠ q'.1 := by
      intro q' hq' p hp
      rcases List.mem_append.mp hp with hp | hp
      · exact hfresh q' (List.mem_cons_of_mem _ hq') p hp
      · have hpq : p = (q.1, q.2) := by simpa using hp
        rw [hpq]
        intro hcontra
        exact hq (by rw [hcontra]; exact List.mem_map_of_mem Prod.fst hq')
    rw [ih (d ++ [(q.1, q.2)]) hnd' hfresh']
    simp

theorem dictOfList_of_nodup (ps : List (String × α))
    (hnd : (ps.map Prod.fst).Nodup) : dictOfList ps = ps := by
  simpa using foldl_dictInsert_append ps [] hnd (by simp)

theorem find?_map_replace (d : List (String × α)) (k : String) (v : α) :
    (d.map (fun p => if p.1 == k then (k, v) else p)).find? (fun p => p.1 == k) =
      if d.any (fun p => p.1 == k) then some (k, v) else none := by
  induction d with
  | nil => simp
  | cons p ps ih =>
    by_cases h : p.1 == k
    · simp [h, List.find?]
    · simp only [List.map_cons, List.any_cons, h, Bool.false_or]
      rw [if_neg (by simp), List.find?]
      simp only [h]
      exact ih

theorem dictGet?_insert_self (d : List (String × α)) (k : String) (v : α) :
    dictGet? (dictInsert d k v) k = some v := by
  unfold dictInsert dictGet?
  by_cases h : d.any (fun p => p.1 == k)
  · rw [if_pos h, find?_map_replace, if_pos h]
    rfl
  · rw [if_neg h, List.find?_append]
    have hh : ∀ x : α, (k, x) ∉ d := by simpa using h
    have hnone : d.find? (fun p => p.1 == k) = none := by
      rw [List.find?_eq_none]
      intro p hp hbeq
      have hk : p.1 = k := by simpa using hbeq
      exact hh p.2 (by rw [← hk]; simpa using hp)
    simp [hnone, List.find?]

theorem dictGet?_append_of_fresh (d d' : List (String × α)) (k : String)
    (h : ∀ p ∈ d, p.1 ≠ k) : dictGet? (d ++ d') k = dictGet? d' k := by
  unfold dictGet?
  rw [List.find?_append]
  have : d.find? (fun p => p.1 == k) = none := by
    rw [List.find?_eq_none]
    intro p hp
    simpa using h p hp
  simp [this]

/-! ### Lemmas about the per-file validation -/

theorem parseSampleFile_of_valid (name_field_titles : List String)
    (sample_file : String)
    (hv : validBasename name_field_titles (basename sample_file) = true) :
    parseSampleFile name_field_titles sample_file =
      .ok (sampleNameOf (basename sample_file), mkRecord name_field_titles sample_file) := by
  have hv' := hv
  simp only [validBasename, Bool.and_eq_true, beq_iff_eq, Bool.not_eq_true',
    sampleNameOf, List.headD_eq_head?] at hv'
  obtain ⟨⟨h1, h2⟩, h3⟩ := hv'
  simp [parseSampleFile, h1, h2, h3, mkRecord, sampleNameOf]

theorem parseSampleFile_ne_noInput (name_field_titles : List String)
    (sample_file : String) :
    parseSampleFile name_field_titles sample_file ≠ .error .noInput := by
  simp only [parseSampleFile]
  split
  · simp
  · split
    · simp
    · split
      · simp
      · simp

theorem processSamples_ne_noInput (name_field_titles : List String)
    (fs : List String) (samples : List (String × List (String × String))) :
    processSamples name_field_titles fs samples ≠ .error .noInput := by
  induction fs generalizing samples with
  | nil => simp [processSamples]
  | cons f rest ih =>
    unfold processSamples
    cases hp : parseSampleFile name_field_titles f with
    | error e =>
      simp only []
      intro hc
      apply parseSampleFile_ne_noInput name_field_titles f
      rw [hp]
      injection hc with he
      rw [he]
    | ok v => exact ih (dictInsert samples v.1 v.2)

theorem processSamples_of_valid (name_field_titles : List String)
    (fs : List String) (samples : List (String × List (String × String)))
    (h : ∀ f ∈ fs, validBasename name_field_titles (basename f) = true) :
    processSamples name_field_titles fs samples =
      .ok (fs.foldl
        (fun s f => dictInsert s (sampleNameOf (basename f)) (mkRecord name_field_titles f))
        samples) := by
  induction fs generalizing samples with
  | nil => simp [processSamples]
  | cons f rest ih =>
    rw [processSamples, parseSampleFile_of_valid name_field_titles f
      (h f (List.mem_cons_self _ _))]
    simp only [List.foldl_cons]
    exact ih _ (fun g hg => h g (List.mem_cons_of_mem _ hg))

/-! ### Lemmas about the table construction -/

theorem assignColumn_rows_length (t : PTable) (c : String) (vals : List String)
    (h : vals.length = t.rows.length) :
    (assignColumn t c vals).rows.length = t.rows.length := by
  simp [assignColumn, h]

theorem colValues_length (t : PTable) (c : String) :
    (colValues t c).length = t.rows.length := by
  simp [colValues]

theorem colValues_assignColumn_self (t : PTable) (c : String) (vals : List String)
    (h : vals.length = t.rows.length) :
    colValues (assignColumn t c vals) c = vals := by
  unfold colValues assignColumn
  simp only [List.map_map]
  have hstep : ∀ p : (String × List (String × String)) × String,
      ((fun r => (dictGet? r.2 c).getD "") ∘ fun p => (p.1.1, dictInsert p.1.2 c p.2)) p =
        p.2 := by
    intro p
    simp [dictGet?_insert_self]
  rw [List.map_congr_left (fun p _ => hstep p)]
  exact List.map_snd_zip _ _ (le_of_eq h)

theorem buildTable_rows_length (cfg : Config)
    (samples : List (String × List (String × String))) :
    (buildTable cfg samples).rows.length = samples.length := by
  unfold buildTable
  cases cfg.sample_fields with
  | none =>
    simp [assignColumn_rows_length, colValues_length, assignColumn, colValues,
      unionKeys]
  | some sf =>
    simp [assignColumn_rows_length, colValues_length, assignColumn, colValues,
      unionKeys]

theorem buildTable_agg_id (cfg : Config)
    (samples : List (String × List (String × String))) :
    colValues (buildTable cfg samples) "agg_id" =
      (List.range samples.length).map (fun i => toString (i + 1)) := by
  unfold buildTable
  cases hsf : cfg.sample_fields with
  | none =>
    rw [colValues_assignColumn_self]
    · congr 1
      simp [assignColumn, colValues]
    · simp [assignColumn, colValues]
  | some sf =>
    rw [colValues_assignColumn_self]
    · congr 1
      simp [assignColumn, colValues]
    · simp [assignColumn, colValues]

theorem contains_eq_false_of_not_mem {l : List String} {a : String} (h : a ∉ l) :
    l.contains a = false := by
  cases hc : l.contains a with
  | false => rfl
  | true => exact absurd (List.mem_of_elem_eq_true hc) h

theorem contains_eq_true_of_mem {l : List String} {a : String} (h : a ∈ l) :
    l.contains a = true :=
  List.elem_eq_true_of_mem h

theorem innerFold_of_fresh (d : List (String × String)) (acc : List String)
    (hnd : (d.map Prod.fst).Nodup) (hfresh : ∀ p ∈ d, p.1 ∉ acc) :
    d.foldl (fun a p => if a.contains p.1 then a else a ++ [p.1]) acc =
      acc ++ d.map Prod.fst := by
  induction d generalizing acc with
  | nil => simp
  | cons p ps ih =>
    simp only [List.foldl_cons]
    rw [if_neg (by
      rw [contains_eq_false_of_not_mem (hfresh p (List.mem_cons_self _ _))]
      simp)]
    have hnd2 : p.1 ∉ ps.map Prod.fst ∧ (ps.map Prod.fst).Nodup := by
      simpa [List.nodup_cons] using hnd
    have hfresh' : ∀ q ∈ ps, q.1 ∉ acc ++ [p.1] := by
      intro q hq hmem
      rcases List.mem_append.mp hmem with hmem | hmem
      · exact hfresh q (List.mem_cons_of_mem _ hq) hmem
      · have : q.1 = p.1 := by simpa using hmem
        exact hnd2.1 (this ▸ List.mem_map_of_mem Prod.fst hq)
    rw [ih (acc ++ [p.1]) hnd2.2 hfresh']
    simp

theorem innerFold_of_contained (d : List (String × String)) (acc : List String)
    (hall : ∀ p ∈ d, p.1 ∈ acc) :
    d.foldl (fun a p => if a.contains p.1 then a else a ++ [p.1]) acc = acc := by
  induction d with
  | nil => rfl
  | cons p ps ih =>
    simp only [List.foldl_cons]
    rw [if_pos (by
      rw [contains_eq_true_of_mem (hall p (List.mem_cons_self _ _))])]
    exact ih (fun q hq => hall q (List.mem_cons_of_mem _ hq))

theorem outerFold_const (ds : List (List (String × String))) (K : List String)
    (hK : ∀ d ∈ ds, d.map Prod.fst = K) :
    ds.foldl
      (fun acc d => d.foldl (fun a p => if a.contains p.1 then a else a ++ [p.1]) acc)
      K = K := by
  induction ds with
  | nil => rfl
  | cons d rest ih =>
    simp only [List.foldl_cons]
    rw [innerFold_of_contained d K (fun p hp => by
      rw [← hK d (List.mem_cons_self _ _)]
      exact List.mem_map_of_mem Prod.fst hp)]
    exact ih (fun d' hd' => hK d' (List.mem_cons_of_mem _ hd'))

theorem unionKeys_const (ds : List (List (String × String))) (K : List String)
    (hne : ds ≠ []) (hK : ∀ d ∈ ds, d.map Prod.fst = K) (hnd : K.Nodup) :
    unionKeys ds = K := by
  cases ds with
  | nil => exact absurd rfl hne
  | cons d rest =>
    unfold unionKeys
    simp only [List.foldl_cons]
    rw [innerFold_of_fresh d []
      (by rw [hK d (List.mem_cons_self _ _)]; exact hnd) (by simp)]
    simp only [List.nil_append, hK d (List.mem_cons_self _ _)]
    exact outerFold_const rest K (fun d' hd' => hK d' (List.mem_cons_of_mem _ hd'))

theorem PTable_mk_colNames (cs : List String)
    (rs : List (String × List (String × String))) :
    (PTable.mk cs rs).colNames = cs := rfl

theorem assignColumn_colNames (t : PTable) (c : String) (vals : List String) :
    (assignColumn t c vals).colNames =
      if t.colNames.contains c then t.colNames else t.colNames ++ [c] := rfl

theorem buildTable_colNames (cfg : Config)
    (samples : List (String × List (String × String))) (K : List String)
    (hne : samples ≠ [])
    (hK : ∀ r ∈ samples, r.2.map Prod.fst = K)
    (hnd : (K ++ ["library_id", "sample_id", "molecule_h5", "agg_id"]).Nodup) :
    (buildTable cfg samples).colNames =
      K ++ ["library_id", "sample_id", "molecule_h5", "agg_id"] := by
  obtain ⟨hKnd, h4, hdisj⟩ := List.nodup_append.mp hnd
  have h0 : unionKeys (samples.map Prod.snd) = K := by
    apply unionKeys_const
    · simpa using hne
    · intro d hd
      rcases List.mem_map.mp hd with ⟨r, hr, rfl⟩
      exact hK r hr
    · exact hKnd
  have hlib : "library_id" ∉ K := fun h => hdisj h (by decide)
  have hsid : "sample_id" ∉ K ++ ["library_id"] := by
    intro h
    rcases List.mem_append.mp h with h | h
    · exact hdisj h (by decide)
    · exact absurd h (by decide)
  have hmol : "molecule_h5" ∉ K ++ ["library_id"] ++ ["sample_id"] := by
    intro h
    rcases List.mem_append.mp h with h | h
    · rcases List.mem_append.mp h with h | h
      · exact hdisj h (by decide)
      · exact absurd h (by decide)
    · exact absurd h (by decide)
  have hagg : "agg_id" ∉ K ++ ["library_id"] ++ ["sample_id"] ++ ["molecule_h5"] := by
    intro h
    rcases List.mem_append.mp h with h | h
    · rcases List.mem_append.mp h with h | h
      · rcases List.mem_append.mp h with h | h
        · exact hdisj h (by decide)
        · exact absurd h (by decide)
      · exact absurd h (by decide)
    · exact absurd h (by decide)
  unfold buildTable
  cases hsf : cfg.sample_fields with
  | none =>
    simp only [assignColumn_colNames, PTable_mk_colNames, h0,
      contains_eq_false_of_not_mem hlib, contains_eq_false_of_not_mem hsid,
      contains_eq_false_of_not_mem hmol, contains_eq_false_of_not_mem hagg,
      Bool.false_eq_true, if_false]
    simp
  | some sf =>
    simp only [assignColumn_colNames, PTable_mk_colNames, h0,
      contains_eq_false_of_not_mem hlib, contains_eq_false_of_not_mem hsid,
      contains_eq_false_of_not_mem hmol, contains_eq_false_of_not_mem hagg,
      Bool.false_eq_true, if_false]
    simp

theorem foldl_dictInsert_map {β : Type} (xs : List β) (nm : β → String)
    (rc : β → List (String × String)) (acc : List (String × List (String × String)))
    (hnd : (xs.map nm).Nodup) (hfresh : ∀ x ∈ xs, ∀ p ∈ acc, p.1 ≠ nm x) :
    xs.foldl (fun s x => dictInsert s (nm x) (rc x)) acc =
      acc ++ xs.map (fun x => (nm x, rc x)) := by
  induction xs generalizing acc with
  | nil => simp
  | cons x xs ih =>
    simp only [List.foldl_cons]
    rw [dictInsert_of_fresh acc (nm x) (rc x)
      (fun p hp => hfresh x (List.mem_cons_self _ _) p hp)]
    have hnd2 : nm x ∉ xs.map nm ∧ (xs.map nm).Nodup := by
      simpa [List.nodup_cons] using hnd
    have hfresh' : ∀ y ∈ xs, ∀ p ∈ acc ++ [(nm x, rc x)], p.1 ≠ nm y := by
      intro y hy p hp
      rcases List.mem_append.mp hp with hp | hp
      · exact hfresh y (List.mem_cons_of_mem _ hy) p hp
      · have hpx : p = (nm x, rc x) := by simpa using hp
        rw [hpx]
        intro hc
        have hc' : nm x = nm y := hc
        exact hnd2.1 (hc' ▸ List.mem_map_of_mem nm hy)
    rw [ih (acc ++ [(nm x, rc x)]) hnd2.2 hfresh']
    simp

/-- The success path of `sample_information` with `check_only=False`: when the
matched directory entries are `es`, all valid, with pairwise-distinct sample
names, the result is the table built from one record per entry, in listing
order. -/
theorem sample_information_ok (cfg : Config) (dir : List (String × List String))
    (es : List String)
    (hes : (dir.map Prod.fst).filter matchesSampleGlob = es)
    (hne : es ≠ [])
    (hval : ∀ e ∈ es,
      validBasename (pySplit ',' cfg.name_field_titles) e = true ∧ '/' ∉ e.data)
    (hnodup : (es.map sampleNameOf).Nodup) :
    sample_information cfg false dir =
      .ok (some (buildTable cfg (es.map (fun e =>
        (sampleNameOf e,
         mkRecord (pySplit ',' cfg.name_field_titles) ("data.dir/" ++ e)))))) := by
  have hkey : ∀ e ∈ es, basename ("data.dir/" ++ e) = e :=
    fun e he => basename_datadir e (hval e he).2
  have hvalid_fs : ∀ f ∈ es.map (fun e => "data.dir/" ++ e),
      validBasename (pySplit ',' cfg.name_field_titles) (basename f) = true := by
    intro f hf
    rcases List.mem_map.mp hf with ⟨e, he, rfl⟩
    rw [hkey e he]
    exact (hval e he).1
  have hnd_fs : ((es.map (fun e => "data.dir/" ++ e)).map
      (fun f => sampleNameOf (basename f))).Nodup := by
    rw [List.map_map]
    rw [List.map_congr_left (l := es)
      (f := (fun f => sampleNameOf (basename f)) ∘ (fun e => "data.dir/" ++ e))
      (g := sampleNameOf)
      (fun e he => by simp only [Function.comp_apply]; rw [hkey e he])]
    exact hnodup
  have h1 := processSamples_of_valid (pySplit ',' cfg.name_field_titles)
    (es.map (fun e => "data.dir/" ++ e)) [] hvalid_fs
  have h2 := foldl_dictInsert_map (es.map (fun e => "data.dir/" ++ e))
    (fun f => sampleNameOf (basename f))
    (fun f => mkRecord (pySplit ',' cfg.name_field_titles) f) [] hnd_fs (by simp)
  have h3 : (es.map (fun e => "data.dir/" ++ e)).map
      (fun f => (sampleNameOf (basename f),
        mkRecord (pySplit ',' cfg.name_field_titles) f)) =
      es.map (fun e => (sampleNameOf e,
        mkRecord (pySplit ',' cfg.name_field_titles) ("data.dir/" ++ e))) := by
    rw [List.map_map]
    exact List.map_congr_left
      (fun e he => by simp only [Function.comp_apply]; rw [hkey e he])
  have hlen : ¬ (es.map (fun e => "data.dir/" ++ e)).length = 0 := by
    simpa [List.length_eq_zero] using hne
  simp only [sample_information, hes]
  rw [if_neg hlen, h1, h2]
  simp only [List.nil_append, h3]
  rfl

theorem exists_four_of_length (l : List String) (h : l.length = 4) :
    ∃ a b c d, l = [a, b, c, d] := by
  cases l with
  | nil => simp at h
  | cons a l1 =>
    cases l1 with
    | nil => simp at h
    | cons b l2 =>
      cases l2 with
      | nil => simp at h
      | cons c l3 =>
        cases l3 with
        | nil => simp at h
        | cons d l4 =>
          cases l4 with
          | nil => exact ⟨a, b, c, d, rfl⟩
          | cons e l5 =>
            simp only [List.length_cons] at h
            omega

theorem mkRecord_keys (ts : List String) (f : String)
    (hval : validBasename ts (basename f) = true)
    (hnd : (ts ++ ["ncells", "seq_id", "file"]).Nodup) :
    (mkRecord ts f).map Prod.fst = ts ++ ["ncells", "seq_id", "file"] := by
  have hv' := hval
  simp only [validBasename, Bool.and_eq_true, beq_iff_eq, Bool.not_eq_true'] at hv'
  obtain ⟨⟨h1, h2⟩, h3⟩ := hv'
  unfold mkRecord
  have hlen : (ts ++ ["ncells", "seq_id", "file"]).length ≤
      (pySplit '_' (sampleNameOf (basename f)) ++
        ((pySplit '.' (basename f)).drop 1).take 2 ++ [f]).length := by
    simp only [List.length_append, List.length_take, List.length_drop,
      List.length_cons, List.length_nil, List.length_singleton, h1, h3]
    omega
  have hkeys := List.map_fst_zip (ts ++ ["ncells", "seq_id", "file"]) _ hlen
  rw [dictOfList_of_nodup _ (by rw [hkeys]; exact hnd), hkeys]

theorem dictGet?_mkRecord_ncells (ts : List String) (f : String)
    (hval : validBasename ts (basename f) = true)
    (hnd : (ts ++ ["ncells", "seq_id", "file"]).Nodup) :
    dictGet? (mkRecord ts f) "ncells" =
      some (((pySplit '.' (basename f)).drop 1).headD "") := by
  have hv' := hval
  simp only [validBasename, Bool.and_eq_true, beq_iff_eq, Bool.not_eq_true'] at hv'
  obtain ⟨⟨h1, h2⟩, h3⟩ := hv'
  obtain ⟨a, s1, s2, s3, hdec⟩ := exists_four_of_length _ h1
  have hndK : ((ts ++ ["ncells", "seq_id", "file"]).zip
      (pySplit '_' (sampleNameOf (basename f)) ++
        ((pySplit '.' (basename f)).drop 1).take 2 ++ [f])).map Prod.fst =
      ts ++ ["ncells", "seq_id", "file"] := by
    apply List.map_fst_zip
    simp only [List.length_append, List.length_take, List.length_drop,
      List.length_cons, List.length_nil, List.length_singleton, h1, h3]
    omega
  unfold mkRecord
  rw [dictOfList_of_nodup _ (by rw [hndK]; exact hnd)]
  rw [hdec]
  have htake : List.take 2 (List.drop 1 [a, s1, s2, s3]) = [s1, s2] := rfl
  rw [htake]
  have hassoc : pySplit '_' (sampleNameOf (basename f)) ++ [s1, s2] ++ [f] =
      pySplit '_' (sampleNameOf (basename f)) ++ [s1, s2, f] := by simp
  rw [hassoc, List.zip_append h3.symm]
  rw [dictGet?_append_of_fresh]
  · simp [dictGet?, List.find?]
  · intro p hp
    have hp' : (p.1, p.2) ∈ ts.zip (pySplit '_' (sampleNameOf (basename f))) := by
      simpa using hp
    intro hc
    have hmem : "ncells" ∈ ts := hc ▸ (List.of_mem_zip hp').1
    exact (List.nodup_append.mp hnd).2.2 hmem (by decide)

/-! ### The claims -/

/-- Claim C1: for every manifest set in which every basename passes validation
and no two manifests reconstruct the same sample_name (and which, per the
spec's invariants, is nonempty), `sample_information(check_only=False)`
returns a table with exactly one row per input manifest file, and the
`agg_id` column holds the sequential decimal strings "1".."N" in table row
order. -/
theorem sampleInformation_one_row_per_manifest_and_sequential_agg_id
    (cfg : Config) (dir : List (String × List String)) (es : List String)
    (hes : (dir.map Prod.fst).filter matchesSampleGlob = es)
    (hne : es ≠ [])
    (hval : ∀ e ∈ es,
      validBasename (pySplit ',' cfg.name_field_titles) e = true ∧ '/' ∉ e.data)
    (hnodup : (es.map sampleNameOf).Nodup) :
    ∃ t, sample_information cfg false dir = .ok (some t) ∧
      t.rows.length = es.length ∧
      colValues t "agg_id" =
        (List.range es.length).map (fun i => toString (i + 1)) := by
  refine ⟨_, sample_information_ok cfg dir es hes hne hval hnodup, ?_, ?_⟩
  · rw [buildTable_rows_length]
    simp
  · rw [buildTable_agg_id]
    simp

/-- Witness for C1: a concrete two-manifest directory. -/
theorem sampleInformation_one_row_per_manifest_witness :
    (["a.1.1.sample", "b.2.2.sample"] ≠ ([] : List String)) ∧
    (∃ t, sample_information ⟨"f", none⟩ false
        [("a.1.1.sample", []), ("b.2.2.sample", [])] = .ok (some t) ∧
      t.rows.length = ["a.1.1.sample", "b.2.2.sample"].length ∧
      colValues t "agg_id" =
        (List.range ["a.1.1.sample", "b.2.2.sample"].length).map
          (fun i => toString (i + 1))) :=
  ⟨by decide,
   sampleInformation_one_row_per_manifest_and_sequential_agg_id
     ⟨"f", none⟩ [("a.1.1.sample", []), ("b.2.2.sample", [])]
     ["a.1.1.sample", "b.2.2.sample"]
     (by decide) (by decide) (by decide) (by decide)⟩

/-- Claim C2: a manifest basename with a dot-split segment count other than 4
makes the filename loop fail with the malformed-name error, carrying the
offending basename and the expected pattern; with exactly 4 segments it never
fails with that error. -/
theorem parseSampleFile_malformed_iff_not_four_sections
    (name_field_titles : List String) (sample_file : String) :
    ((pySplit '.' (basename sample_file)).length ≠ 4 →
      parseSampleFile name_field_titles sample_file =
        .error (.malformedManifestName (basename sample_file) expectedPattern)) ∧
    ((pySplit '.' (basename sample_file)).length = 4 →
      ∀ b p, parseSampleFile name_field_titles sample_file ≠
        .error (.malformedManifestName b p)) := by
  constructor
  · intro h
    simp only [parseSampleFile]
    rw [if_pos h]
  · intro h b p
    simp only [parseSampleFile]
    rw [if_neg (by rw [h]; simp)]
    split
    · simp
    · split
      · simp
      · simp

/-- Witness for C2: both directions at concrete basenames. -/
theorem parseSampleFile_malformed_witness :
    ((pySplit '.' (basename "data.dir/bad.1000.sample")).length ≠ 4) ∧
    parseSampleFile ["donor"] "data.dir/bad.1000.sample" =
      .error (.malformedManifestName (basename "data.dir/bad.1000.sample")
        expectedPattern) ∧
    parseSampleFile ["donor"] "data.dir/ok.1000.1.sample" ≠
      .error (.malformedManifestName "x" "y") :=
  ⟨by decide,
   (parseSampleFile_malformed_iff_not_four_sections ["donor"]
     "data.dir/bad.1000.sample").1 (by decide),
   (parseSampleFile_malformed_iff_not_four_sections ["donor"]
     "data.dir/ok.1000.1.sample").2 (by decide) "x" "y"⟩

/-- Counterexample to C3 as stated: the basename "sample_id.10.1.sample" has
4 dot-sections and a name-field count (1, after underscore-split the name
"sample_id" has 2 fields vs 1 configured title... here 2 ≠ 1) differing from
the configured count, yet parsing fails with the reserved-name error, not the
field-count error, because the reserved-substring check runs first. -/
theorem parseSampleFile_fieldCount_counterexample :
    ((pySplit '.' (basename "data.dir/sample_id.10.1.sample")).length = 4) ∧
    ((pySplit '_' (sampleNameOf (basename "data.dir/sample_id.10.1.sample"))).length ≠
      (["donor"] : List String).length) ∧
    parseSampleFile ["donor"] "data.dir/sample_id.10.1.sample" =
      .error .reservedName ∧
    parseSampleFile ["donor"] "data.dir/sample_id.10.1.sample" ≠
      .error (.fieldCountMismatch
        (sampleNameOf (basename "data.dir/sample_id.10.1.sample")) ["donor"]) :=
  ⟨by decide, by decide, by decide, by decide⟩

/-- Claim C3 (amended): for a basename with exactly 4 dot-sections whose first
segment does not contain the reserved substring "sample_id" and whose
underscore-field count differs from the configured title count, the filename
loop fails with the field-count-mismatch error. -/
theorem parseSampleFile_fieldCount_amended
    (name_field_titles : List String) (sample_file : String)
    (h4 : (pySplit '.' (basename sample_file)).length = 4)
    (hres : pyContains (sampleNameOf (basename sample_file)) "sample_id" = false)
    (hcnt : (pySplit '_' (sampleNameOf (basename sample_file))).length ≠
      name_field_titles.length) :
    parseSampleFile name_field_titles sample_file =
      .error (.fieldCountMismatch (sampleNameOf (basename sample_file))
        name_field_titles) := by
  simp only [sampleNameOf, List.headD_eq_head?] at hres hcnt
  simp [parseSampleFile, h4, hres, hcnt, sampleNameOf]

/-- Witness for the amended C3. -/
theorem parseSampleFile_fieldCount_witness :
    ((pySplit '.' (basename "data.dir/a_b.10.1.sample")).length = 4) ∧
    (pyContains (sampleNameOf (basename "data.dir/a_b.10.1.sample"))
      "sample_id" = false) ∧
    ((pySplit '_' (sampleNameOf (basename "data.dir/a_b.10.1.sample"))).length ≠
      (["x"] : List String).length) ∧
    parseSampleFile ["x"] "data.dir/a_b.10.1.sample" =
      .error (.fieldCountMismatch (sampleNameOf (basename "data.dir/a_b.10.1.sample"))
        ["x"]) :=
  ⟨by decide, by decide, by decide,
   parseSampleFile_fieldCount_amended ["x"] "data.dir/a_b.10.1.sample"
     (by decide) (by decide) (by decide)⟩

/-- Claim C4: for a basename with exactly 4 dot-sections whose first segment
contains the substring "sample_id", the filename loop fails with the
reserved-name error. -/
theorem parseSampleFile_reserved_name
    (name_field_titles : List String) (sample_file : String)
    (h4 : (pySplit '.' (basename sample_file)).length = 4)
    (hres : pyContains (sampleNameOf (basename sample_file)) "sample_id" = true) :
    parseSampleFile name_field_titles sample_file = .error .reservedName := by
  simp only [sampleNameOf, List.headD_eq_head?] at hres
  simp [parseSampleFile, h4, hres, sampleNameOf]

/-- Witness for C4. -/
theorem parseSampleFile_reserved_name_witness :
    ((pySplit '.' (basename "data.dir/x_sample_idy.10.1.sample")).length = 4) ∧
    (pyContains (sampleNameOf (basename "data.dir/x_sample_idy.10.1.sample"))
      "sample_id" = true) ∧
    parseSampleFile ["donor"] "data.dir/x_sample_idy.10.1.sample" =
      .error .reservedName :=
  ⟨by decide, by decide,
   parseSampleFile_reserved_name ["donor"] "data.dir/x_sample_idy.10.1.sample"
     (by decide) (by decide)⟩

/-- Claim C5: `sample_information` fails with the no-input error exactly when
the scanned directory holds zero files matching the `*.sample` glob, for
either value of check_only; with at least one match this error is never
raised. -/
theorem sampleInformation_noInput_iff_no_manifests
    (cfg : Config) (check_only : Bool) (dir : List (String × List String)) :
    sample_information cfg check_only dir = .error .noInput ↔
      (dir.map Prod.fst).filter matchesSampleGlob = [] := by
  cases hes : (dir.map Prod.fst).filter matchesSampleGlob with
  | nil =>
    simp only [sample_information, hes]
    simp
  | cons e es' =>
    simp only [sample_information, hes]
    rw [if_neg (by simp)]
    constructor
    · intro h
      cases hps : processSamples (pySplit ',' cfg.name_field_titles)
          ((e :: es').map (fun e => "data.dir/" ++ e)) [] with
      | error err =>
        rw [hps] at h
        simp only [Except.error.injEq] at h
        exact absurd (by rw [hps, h] :
          processSamples (pySplit ',' cfg.name_field_titles)
            ((e :: es').map (fun e => "data.dir/" ++ e)) [] = .error .noInput)
          (processSamples_ne_noInput _ _ _)
      | ok samples =>
        rw [hps] at h
        split at h
        · simp_all
        · split at h <;> simp_all
    · intro h
      exact absurd h (by simp)

/-- Counterexample to C6 as stated: two directories with identical contents
(the same finite multiset of (filename, body) pairs — here one is a
permutation of the other) produce different tables, because row order and
agg_id follow the filesystem enumeration order. -/
theorem sampleInformation_determinism_counterexample :
    ([("a.1.1.sample", ([] : List String)), ("b.2.2.sample", [])].Perm
      [("b.2.2.sample", []), ("a.1.1.sample", [])]) ∧
    sample_information ⟨"f", none⟩ false
        [("a.1.1.sample", []), ("b.2.2.sample", [])] ≠
      sample_information ⟨"f", none⟩ false
        [("b.2.2.sample", []), ("a.1.1.sample", [])] :=
  ⟨List.Perm.swap _ _ _, by decide⟩

/-- Claim C6 (amended): table construction is deterministic relative to the
directory enumeration order: two runs whose scans yield the same sequence of
matched `*.sample` entries (whatever the file bodies or other directory
entries) return identical results, and in particular identical tables and
agg_id assignments. -/
theorem sampleInformation_deterministic_in_listing_order
    (cfg : Config) (check_only : Bool) (d1 d2 : List (String × List String))
    (h : (d1.map Prod.fst).filter matchesSampleGlob =
      (d2.map Prod.fst).filter matchesSampleGlob) :
    sample_information cfg check_only d1 = sample_information cfg check_only d2 := by
  simp only [sample_information]
  rw [h]

/-- Witness for the amended C6: different directories (an extra non-matching
file, different bodies) with the same matched-entry sequence give identical
results. -/
theorem sampleInformation_deterministic_witness :
    ((([("a.1.1.sample", ["x"])] : List (String × List String)).map
        Prod.fst).filter matchesSampleGlob =
      (([("notes.txt", []), ("a.1.1.sample", [])] : List (String × List String)).map
        Prod.fst).filter matchesSampleGlob) ∧
    sample_information ⟨"f", none⟩ false [("a.1.1.sample", ["x"])] =
      sample_information ⟨"f", none⟩ false [("notes.txt", []), ("a.1.1.sample", [])] :=
  ⟨by decide,
   sampleInformation_deterministic_in_listing_order ⟨"f", none⟩ false
     [("a.1.1.sample", ["x"])] [("notes.txt", []), ("a.1.1.sample", [])] (by decide)⟩

/-- Counterexample to C7 as stated: on a valid input the table's columns are
donor, condition, ncells, seq_id, file, library_id, sample_id, molecule_h5,
agg_id — there is no column named "batch" (the batch column is named
"seq_id"), so the claimed column set (which includes batch and tolerates no
differently named columns) does not match. -/
theorem sampleInformation_columns_counterexample :
    tableIsSome (sample_information ⟨"donor,condition", none⟩ false
      [("donor1_stim.2000.1.sample", [])]) = true ∧
    tableColNames (sample_information ⟨"donor,condition", none⟩ false
      [("donor1_stim.2000.1.sample", [])]) =
      ["donor", "condition", "ncells", "seq_id", "file", "library_id",
       "sample_id", "molecule_h5", "agg_id"] ∧
    "batch" ∉ tableColNames (sample_information ⟨"donor,condition", none⟩ false
      [("donor1_stim.2000.1.sample", [])]) :=
  ⟨by decide, by decide, by decide⟩

/-- Claim C7 (amended): for every valid manifest set (with distinct sample
names and non-clashing configured titles) the table's columns are exactly the
configured name-field titles followed by ncells, seq_id, file, library_id,
sample_id, molecule_h5 and agg_id, in that order — the batch column is named
"seq_id" and the source-path column "file". -/
theorem sampleInformation_columns_amended
    (cfg : Config) (dir : List (String × List String)) (es : List String)
    (hes : (dir.map Prod.fst).filter matchesSampleGlob = es)
    (hne : es ≠ [])
    (hval : ∀ e ∈ es,
      validBasename (pySplit ',' cfg.name_field_titles) e = true ∧ '/' ∉ e.data)
    (hnodup : (es.map sampleNameOf).Nodup)
    (hnd : (pySplit ',' cfg.name_field_titles ++
      ["ncells", "seq_id", "file", "library_id", "sample_id", "molecule_h5",
       "agg_id"]).Nodup) :
    ∃ t, sample_information cfg false dir = .ok (some t) ∧
      t.colNames = pySplit ',' cfg.name_field_titles ++
        ["ncells", "seq_id", "file", "library_id", "sample_id", "molecule_h5",
         "agg_id"] := by
  refine ⟨_, sample_information_ok cfg dir es hes hne hval hnodup, ?_⟩
  have hnd' : ((pySplit ',' cfg.name_field_titles ++ ["ncells", "seq_id", "file"]) ++
      ["library_id", "sample_id", "molecule_h5", "agg_id"]).Nodup := by
    simpa [List.append_assoc] using hnd
  rw [buildTable_colNames cfg _
    (pySplit ',' cfg.name_field_titles ++ ["ncells", "seq_id", "file"])
    (by simpa using hne)
    (by
      intro r hr
      rcases List.mem_map.mp hr with ⟨e, he, rfl⟩
      exact mkRecord_keys _ _
        (by rw [basename_datadir e (hval e he).2]; exact (hval e he).1)
        (List.nodup_append.mp hnd').1)
    hnd']
  simp

/-- Witness for the amended C7. -/
theorem sampleInformation_columns_witness :
    (["donor1_stim.2000.1.sample"] ≠ ([] : List String)) ∧
    (∃ t, sample_information ⟨"donor,condition", none⟩ false
        [("donor1_stim.2000.1.sample", [])] = .ok (some t) ∧
      t.colNames = pySplit ',' (Config.mk "donor,condition" none).name_field_titles ++
        ["ncells", "seq_id", "file", "library_id", "sample_id", "molecule_h5",
         "agg_id"]) :=
  ⟨by decide,
   sampleInformation_columns_amended ⟨"donor,condition", none⟩
     [("donor1_stim.2000.1.sample", [])] ["donor1_stim.2000.1.sample"]
     (by decide) (by decide) (by decide) (by decide) (by decide)⟩

/-- Counterexample to C8 as stated: the manifest "a.xyz.1.sample" is accepted
by validation (check_only succeeds), yet the ncells value recorded for it is
the literal string "xyz", which does not denote a positive integer — the code
never checks the ncells segment. -/
theorem ncells_not_validated_counterexample :
    sample_information ⟨"donor", none⟩ true [("a.xyz.1.sample", [])] = .ok none ∧
    firstRowValue (sample_information ⟨"donor", none⟩ false
      [("a.xyz.1.sample", [])]) "ncells" = "xyz" ∧
    isPosIntString "xyz" = false :=
  ⟨by decide, by decide, by decide⟩

/-- Claim C8 (amended): for every manifest accepted by validation, the ncells
value recorded in its record is the second dot-segment of the basename,
verbatim and unchecked — no integrality or positivity constraint is
enforced. -/
theorem parseSampleFile_ncells_verbatim
    (name_field_titles : List String) (sample_file : String)
    (hval : validBasename name_field_titles (basename sample_file) = true)
    (hnd : (name_field_titles ++ ["ncells", "seq_id", "file"]).Nodup) :
    ∃ name record, parseSampleFile name_field_titles sample_file =
      .ok (name, record) ∧
      dictGet? record "ncells" =
        some (((pySplit '.' (basename sample_file)).drop 1).headD "") :=
  ⟨_, _, parseSampleFile_of_valid name_field_titles sample_file hval,
   dictGet?_mkRecord_ncells name_field_titles sample_file hval hnd⟩

/-- Witness for the amended C8. -/
theorem parseSampleFile_ncells_verbatim_witness :
    (validBasename ["donor"] (basename "data.dir/a.xyz.1.sample") = true) ∧
    (∃ name record, parseSampleFile ["donor"] "data.dir/a.xyz.1.sample" =
      .ok (name, record) ∧
      dictGet? record "ncells" =
        some (((pySplit '.' (basename "data.dir/a.xyz.1.sample")).drop 1).headD "")) :=
  ⟨by decide,
   parseSampleFile_ncells_verbatim ["donor"] "data.dir/a.xyz.1.sample"
     (by decide) (by decide)⟩

/-- Claim C9: the manifest-body loop of cellrangerCount produces the file's
lines stripped of surrounding whitespace with blank results removed, in the
original order, and the companion identifier sequence is exactly the basename
of each retained path, in the same order and of the same length. -/
theorem parseManifestBody_lines (ls : List String) :
    (parseManifestBody ls).1 = (ls.map pyStrip).filter (fun s => s != "") ∧
    (parseManifestBody ls).2 =
      ((ls.map pyStrip).filter (fun s => s != "")).map basename ∧
    (parseManifestBody ls).2.length = (parseManifestBody ls).1.length := by
  induction ls with
  | nil => exact ⟨rfl, rfl, rfl⟩
  | cons line rest ih =>
    obtain ⟨ih1, ih2, ih3⟩ := ih
    by_cases h : pyStrip line = ""
    · refine ⟨?_, ?_, ?_⟩ <;>
        simp [parseManifestBody, h, ih1, ih2, ih3]
    · refine ⟨?_, ?_, ?_⟩ <;>
        simp [parseManifestBody, h, ih1, ih2, ih3]

/-- Counterexample to C10 as stated: two directories with the same set of
`*.sample` filenames (one matched-entry sequence is a permutation of the
other) and different bodies do not produce identical tables — enumeration
order, not the set of names, fixes row order and agg_id. -/
theorem sampleInformation_filenames_set_counterexample :
    ((([("a.1.1.sample", ["x"]), ("b.2.2.sample", [])] :
        List (String × List String)).map Prod.fst).filter matchesSampleGlob).Perm
      ((([("b.2.2.sample", ["y"]), ("a.1.1.sample", [])] :
        List (String × List String)).map Prod.fst).filter matchesSampleGlob) ∧
    sample_information ⟨"f", none⟩ false
        [("a.1.1.sample", ["x"]), ("b.2.2.sample", [])] ≠
      sample_information ⟨"f", none⟩ false
        [("b.2.2.sample", ["y"]), ("a.1.1.sample", [])] := by
  constructor
  · exact List.Perm.swap _ _ _
  · decide

/-- Claim C10 (amended): validation and table construction depend only on the
sequence of filenames and the configuration, never on the manifest bodies:
two directory listings with identical filename sequences and arbitrarily
different bodies yield the same errors and, on success, identical tables. -/
theorem sampleInformation_ignores_bodies
    (cfg : Config) (check_only : Bool) (d1 d2 : List (String × List String))
    (h : d1.map Prod.fst = d2.map Prod.fst) :
    sample_information cfg check_only d1 = sample_information cfg check_only d2 := by
  simp only [sample_information]
  rw [h]

/-- Witness for the amended C10: same filename, different bodies (one of them
only blank lines), identical result. -/
theorem sampleInformation_ignores_bodies_witness :
    (([("a.1.1.sample", ["/data/runA", ""])] :
        List (String × List String)).map Prod.fst =
      ([("a.1.1.sample", ["   ", ""])] :
        List (String × List String)).map Prod.fst) ∧
    sample_information ⟨"f", none⟩ false [("a.1.1.sample", ["/data/runA", ""])] =
      sample_information ⟨"f", none⟩ false [("a.1.1.sample", ["   ", ""])] :=
  ⟨by decide,
   sampleInformation_ignores_bodies ⟨"f", none⟩ false
     [("a.1.1.sample", ["/data/runA", ""])] [("a.1.1.sample", ["   ", ""])]
     (by decide)⟩

